import Mathlib

/-!
# Hyperliquid funding tracker: the state pipeline of `HyperliquidTracker.jsx`

A shallow embedding of the React component
`src/frontend/src/pages/HyperliquidTracker.jsx`: its numbers, the colour
classifier `getColorForReturn`, the asynchronous `fetchData` (split at its one
`await`), the liquidity filter effect, the loading / error early returns and
the legend.

## Numbers

A JavaScript number is an IEEE-754 double.  `JSNum` keeps the three special
values apart and reads a finite double as the rational it denotes.  The
operations the component applies to its data are comparisons, `Math.abs`,
`Math.max`, `Math.ceil` (all exact on doubles), one multiplication and one
division, and the subtraction inside the sort comparator.  Products and
quotients are rounded to the nearest double, a tie going to the even
significand, with gradual underflow and overflow to an infinity (`round64`).
Of the comparator's difference only the sign is used, and the rounded
difference of two doubles has the sign of the exact one, so `sub` keeps the
exact difference.  The two zeros of IEEE arithmetic are one value here.

## The engine

A call `Math.max(...list)` passes one argument per element; an engine accepts
only so many and throws `RangeError` beyond.  The bound is not part of the
language, so it is a parameter (`Engine.maxArguments`).
-/

namespace HyperliquidTracker

/-! ## JavaScript numbers -/

/-- A JavaScript number: `NaN`, `-Infinity`, a finite value, or `Infinity`. -/
inductive JSNum where
  | nan
  | negInf
  | fin (q : ℚ)
  | posInf
  deriving DecidableEq

namespace JSNum

/-- Rounding a rational to the nearest integer, a tie going to the even one. -/
def roundHalfEven (x : ℚ) : ℤ :=
  if x - ⌊x⌋ < 1 / 2 then ⌊x⌋
  else if 1 / 2 < x - ⌊x⌋ then ⌊x⌋ + 1
  else if ⌊x⌋ % 2 = 0 then ⌊x⌋ else ⌊x⌋ + 1

/-- The binary exponent of the binade of a magnitude, not below the exponent
`-1022` of the subnormal doubles. -/
def binade (a : ℚ) : ℤ := Max.max (Int.log 2 a) (-1022)

/-- The spacing of the doubles in the binade of `a`: 53 significant bits. -/
def ulp (a : ℚ) : ℚ := (2 : ℚ) ^ (binade a - 52)

/-- The double nearest to a non-negative magnitude, before the overflow test. -/
def roundMag (a : ℚ) : ℚ := (roundHalfEven (a / ulp a) : ℚ) * ulp a

/-- The double nearest to a rational, before the overflow test. -/
def roundSigned (q : ℚ) : ℚ := if 0 ≤ q then roundMag q else -roundMag (-q)

/-- The result of an arithmetic operation whose exact value is `q`: the nearest
double, or an infinity once the rounded magnitude reaches `2 ^ 1024`. -/
def round64 (q : ℚ) : JSNum :=
  if (2 : ℚ) ^ 1024 ≤ roundSigned q then posInf
  else if roundSigned q ≤ -(2 : ℚ) ^ 1024 then negInf
  else fin (roundSigned q)

/-- The finite values that are doubles. -/
def isDouble : JSNum → Bool
  | fin q => decide (round64 q = fin q)
  | _ => false

instance instOfNat (n : Nat) : OfNat JSNum n := ⟨fin n⟩

/-- Finite numbers: what `Number.isFinite` accepts. -/
def isFinite : JSNum → Bool
  | fin _ => true
  | _ => false

/-- The test `Number.isNaN`. -/
def isNaN : JSNum → Bool
  | nan => true
  | _ => false

/-- The operator `x > y`: false as soon as one side is `NaN`. -/
def gt : JSNum → JSNum → Bool
  | fin a, fin b => decide (b < a)
  | posInf, fin _ => true
  | posInf, negInf => true
  | fin _, negInf => true
  | _, _ => false

/-- The operator `x >= y`: false as soon as one side is `NaN`. -/
def ge : JSNum → JSNum → Bool
  | fin a, fin b => decide (b ≤ a)
  | posInf, fin _ => true
  | posInf, negInf => true
  | fin _, negInf => true
  | posInf, posInf => true
  | negInf, negInf => true
  | _, _ => false

/-- The operator `x < y`. -/
def lt (x y : JSNum) : Bool := gt y x

/-- The operator `x <= y`. -/
def le (x y : JSNum) : Bool := ge y x

/-- The infinity carrying the sign of `q`; `NaN` when `q` is zero. -/
def signedInf (q : ℚ) : JSNum :=
  if q = 0 then nan else if 0 < q then posInf else negInf

/-- The operator `x - y`, with the exact difference of two finite values. -/
def sub : JSNum → JSNum → JSNum
  | nan, _ => nan
  | _, nan => nan
  | fin a, fin b => fin (a - b)
  | fin _, posInf => negInf
  | fin _, negInf => posInf
  | posInf, posInf => nan
  | posInf, _ => posInf
  | negInf, negInf => nan
  | negInf, _ => negInf

/-- The operator `x * y`. -/
def mul : JSNum → JSNum → JSNum
  | nan, _ => nan
  | _, nan => nan
  | fin a, fin b => round64 (a * b)
  | fin a, posInf => signedInf a
  | fin a, negInf => signedInf (-a)
  | posInf, fin b => signedInf b
  | negInf, fin b => signedInf (-b)
  | posInf, posInf => posInf
  | negInf, negInf => posInf
  | posInf, negInf => negInf
  | negInf, posInf => negInf

/-- The operator `x / y`; a zero divisor is read as `+0`. -/
def div : JSNum → JSNum → JSNum
  | nan, _ => nan
  | _, nan => nan
  | fin a, fin b => if b = 0 then signedInf a else round64 (a / b)
  | fin _, posInf => fin 0
  | fin _, negInf => fin 0
  | posInf, fin b => if 0 ≤ b then posInf else negInf
  | negInf, fin b => if 0 ≤ b then negInf else posInf
  | _, _ => nan

end JSNum

namespace Math

open JSNum

/-- The function `Math.abs`. -/
def abs : JSNum → JSNum
  | nan => nan
  | negInf => posInf
  | posInf => posInf
  | fin q => fin |q|

/-- The function `Math.ceil`. -/
def ceil : JSNum → JSNum
  | fin q => fin (⌈q⌉ : ℤ)
  | x => x

/-- One step of `Math.max`: `NaN` is absorbing, otherwise the larger value. -/
def max2 (highest x : JSNum) : JSNum :=
  if highest.isNaN || x.isNaN then nan
  else if x.gt highest then x else highest

/-- The function `Math.max(...xs)`: `-Infinity` for no argument, `NaN` as soon
as one argument is `NaN`, the largest argument otherwise. -/
def max (xs : List JSNum) : JSNum := xs.foldl max2 negInf

end Math

/-! ## Data model -/

/-- One element of `response.data.assets`. -/
structure Asset where
  name : String
  funding_rate : JSNum
  annualized_return : JSNum
  mark_price : JSNum
  liquidity_usd : JSNum
  day_volume : JSNum
  premium : JSNum
  deriving DecidableEq

/-- Every numeric field of the record is finite. -/
def Asset.allFinite (a : Asset) : Bool :=
  a.funding_rate.isFinite && a.annualized_return.isFinite && a.mark_price.isFinite &&
    a.liquidity_usd.isFinite && a.day_volume.isFinite && a.premium.isFinite

/-! ## The classifier -/

/-- The function `getColorForReturn` (lines 65-72). -/
def getColorForReturn (annualizedReturn : JSNum) : String :=
  let absReturn := Math.abs annualizedReturn
  if absReturn.gt 50 then
    if annualizedReturn.gt 0 then "rgb(34, 197, 94)" else "rgb(239, 68, 68)"
  else if absReturn.gt 20 then
    if annualizedReturn.gt 0 then "rgb(74, 222, 128)" else "rgb(248, 113, 113)"
  else if absReturn.gt 10 then
    if annualizedReturn.gt 0 then "rgb(134, 239, 172)" else "rgb(252, 165, 165)"
  else if absReturn.gt 5 then
    if annualizedReturn.gt 0 then "rgb(187, 247, 208)" else "rgb(254, 202, 202)"
  else "rgb(229, 231, 235)"

/-- The legend (lines 219-252): each swatch colour with its label, in display
order. -/
def legend : List (String × String) :=
  [ ("rgb(34, 197, 94)", ">50% (Long)"),
    ("rgb(74, 222, 128)", "20-50% (Long)"),
    ("rgb(134, 239, 172)", "10-20% (Long)"),
    ("rgb(229, 231, 235)", "0-10%"),
    ("rgb(252, 165, 165)", "-10 to -20% (Short)"),
    ("rgb(248, 113, 113)", "-20 to -50% (Short)"),
    ("rgb(239, 68, 68)", "<-50% (Short)") ]

/-- The colours the legend shows. -/
def legendColors : List String := legend.map Prod.fst

/-! ## Component state and the fetch response -/

/-- The `useState` cells of the component (lines 14-21).  `liquidityFilter`
holds the one-element array of the slider, of which only element `0` is read;
`lastUpdate` is the clock reading of `new Date()`. -/
structure State where
  assets : List Asset
  filteredAssets : List Asset
  selectedAsset : Option Asset
  loading : Bool
  error : Option String
  liquidityFilter : JSNum
  maxLiquidity : JSNum
  lastUpdate : Option Nat
  deriving DecidableEq

/-- The initial values passed to `useState` (lines 14-21). -/
def State.init : State where
  assets := []
  filteredAssets := []
  selectedAsset := none
  loading := true
  error := none
  liquidityFilter := 0
  maxLiquidity := 1000
  lastUpdate := none

/-- The body `response.data` of the endpoint: `error` and `assets` are
optional JSON fields. -/
structure ResponseData where
  success : Bool
  error : Option String
  assets : Option (List Asset)
  deriving DecidableEq

/-- How the awaited `axios.get` ends: it throws, or it yields a body. -/
inductive FetchOutcome where
  | rejected
  | resolved (data : ResponseData)
  deriving DecidableEq

/-- Truthiness of an optional string: `undefined` and `""` are falsy. -/
def truthy : Option String → Bool
  | some s => s ≠ ""
  | none => false

/-- The expression `e || fallback` on an optional string. -/
def orElse (e : Option String) (fallback : String) : String :=
  match e with
  | some s => if s ≠ "" then s else fallback
  | none => fallback

/-! ## Sorting -/

/-- The comparator handed to `sort` (lines 30-32):
`(a, b) => Math.abs(b.annualized_return) - Math.abs(a.annualized_return)`. -/
def compareFn (a b : Asset) : JSNum :=
  (Math.abs b.annualized_return).sub (Math.abs a.annualized_return)

/-- Under the comparator, `a` need not move behind `b`: the comparator's value
is not positive.  A `NaN` value counts as `+0` (ECMAScript `SortCompare`). -/
def sortLE (a b : Asset) : Prop := (compareFn a b).gt 0 = false

instance sortLE.decidable : DecidableRel sortLE := fun a b =>
  inferInstanceAs (Decidable ((compareFn a b).gt 0 = false))

/-- The call `assets.sort(compareFn)`.  `Array.prototype.sort` is a stable
sort; for a consistent comparator, which this one is as long as no return is
`NaN`, its result is the one stable arrangement, which insertion from the
right computes.  With a `NaN` return the language leaves the order to the
engine; the list below is then one of the permutations an engine may give. -/
def arraySort (l : List Asset) : List Asset := l.insertionSort sortLE

/-! ## `fetchData`, the filter effect and the view -/

/-- What the language leaves to the engine: the largest number of arguments a
call may be given. -/
structure Engine where
  maxArguments : Nat
  deriving DecidableEq

/-- The part of `fetchData` before the `await` (lines 25-26). -/
def fetchStart (s : State) : State :=
  { s with loading := true, error := none }

/-- The `catch` block followed by `finally` (lines 43-48). -/
def fetchCatch (s : State) : State :=
  { s with error := some "Failed to fetch data from server", loading := false }

/-- The part of `fetchData` after the `await` (lines 29-48).  A body with
`success` set and no `assets` makes `.sort` throw, which the `catch` block
handles.  With more records than the engine takes arguments,
`Math.max(...)` throws after `setAssets` has run, and the `catch` block
handles that too. -/
def fetchSettle (engine : Engine) (s : State) (r : FetchOutcome) (now : Nat) : State :=
  match r with
  | .rejected => fetchCatch s
  | .resolved data =>
    if data.success then
      match data.assets with
      | none => fetchCatch s
      | some l =>
        let sortedAssets := arraySort l
        if sortedAssets.length ≤ engine.maxArguments then
          let max := Math.max (sortedAssets.map fun a => a.liquidity_usd)
          { s with
            assets := sortedAssets
            maxLiquidity := Math.ceil (max.div 1000000)
            lastUpdate := some now
            loading := false }
        else
          fetchCatch { s with assets := sortedAssets }
    else
      { s with error := some (orElse data.error "Failed to fetch data"), loading := false }

/-- The filter effect (lines 58-63). -/
def filterEffect (s : State) : State :=
  let minLiquidityUSD := s.liquidityFilter.mul 1000000
  { s with filteredAssets := s.assets.filter fun asset => asset.liquidity_usd.ge minLiquidityUSD }

/-- What can happen to the mounted component. -/
inductive Event where
  | fetchInitiated
  | fetchSettled (r : FetchOutcome) (now : Nat)
  | sliderChanged (value : JSNum)
  | cardClicked (asset : Asset)
  | dialogDismissed
  deriving DecidableEq

/-- One state transition, followed by the filter effect that React runs after
the render it causes. -/
def step (engine : Engine) (s : State) : Event → State
  | .fetchInitiated => filterEffect (fetchStart s)
  | .fetchSettled r now => filterEffect (fetchSettle engine s r now)
  | .sliderChanged value => filterEffect { s with liquidityFilter := value }
  | .cardClicked asset => filterEffect { s with selectedAsset := some asset }
  | .dialogDismissed => filterEffect { s with selectedAsset := none }

/-- The state after a sequence of events. -/
def run (engine : Engine) (s : State) (es : List Event) : State := es.foldl (step engine) s

/-- One whole `fetchData` cycle with nothing in between: the call, and the
settling of its request. -/
def fetchData (engine : Engine) (s : State) (r : FetchOutcome) (now : Nat) : State :=
  run engine s [.fetchInitiated, .fetchSettled r now]

/-- What the component returns. -/
inductive View where
  | loadingScreen
  | errorScreen (message : String)
  | grid (cards : List (Asset × String))
  deriving DecidableEq

/-- The early returns of the component (lines 84-106) and the heatmap grid
(lines 180-208): one card per filtered asset, painted by
`getColorForReturn`. -/
def render (s : State) : View :=
  if s.loading && s.assets.length == 0 then .loadingScreen
  else match s.error with
    | some message =>
      if truthy (some message) then .errorScreen message
      else .grid (s.filteredAssets.map fun a => (a, getColorForReturn a.annualized_return))
    | none => .grid (s.filteredAssets.map fun a => (a, getColorForReturn a.annualized_return))

/-! ## Sample data -/

/-- A record with a twelve percent return and 11.7 million of liquidity. -/
def assetBTC : Asset :=
  ⟨"BTC", .fin (1 / 65536), .fin 12, .fin 64000, .fin 11700000, .fin 90000000, .fin 0⟩

/-- A record with a minus thirty percent return and half a million of liquidity. -/
def assetETH : Asset :=
  ⟨"ETH", .fin (-1 / 32768), .fin (-30), .fin 3000, .fin 500000, .fin 40000000, .fin 0⟩

/-- A record that ties with `assetETH` on the magnitude of its return. -/
def assetSOL : Asset :=
  ⟨"SOL", .fin (1 / 32768), .fin 30, .fin 150, .fin 3000000, .fin 20000000, .fin 0⟩

/-- A record whose `mark_price` is `NaN`. -/
def assetCorrupt : Asset :=
  ⟨"BAD", .fin 0, .fin 3, .nan, .fin 2000000, .fin 0, .fin 0⟩

/-- A record with a seven percent return. -/
def assetModest : Asset :=
  ⟨"DOGE", .fin 0, .fin 7, .fin 1, .fin 2000000, .fin 0, .fin 0⟩

/-- A catalog whose largest liquidity is 11.7 million, under a threshold of 15
million left over from an earlier snapshot. -/
def exampleCatalog : State :=
  { State.init with
    assets := [assetBTC, assetETH]
    loading := false
    maxLiquidity := 12
    liquidityFilter := 15 }

/-- An engine that takes up to 125000 arguments in one call. -/
def sampleEngine : Engine := { maxArguments := 125000 }

/-- A record with 100000 of liquidity. -/
def assetSmall : Asset :=
  ⟨"PEPE", .fin 0, .fin 3, .fin 1, .fin 100000, .fin 0, .fin 0⟩

/-- A record with 8.3 million of liquidity. -/
def assetMid : Asset :=
  ⟨"LINK", .fin 0, .fin 3, .fin 1, .fin 8300000, .fin 0, .fin 0⟩

/-- The double that the literal `0.1` denotes. -/
def double_0_1 : ℚ := 3602879701896397 / 36028797018963968

/-- The double that the literal `8.3` denotes. -/
def double_8_3 : ℚ := 2336242306698445 / 281474976710656

/-- A successful body carrying the given records. -/
def successBody (l : List Asset) : FetchOutcome :=
  .resolved { success := true, error := none, assets := some l }

/-- The magnitude of the return of `a` is at least that of `b`. -/
def absReturnGE (a b : Asset) : Prop :=
  (Math.abs a.annualized_return).ge (Math.abs b.annualized_return) = true

/-! ## Auxiliary lemmas: rounding -/

namespace JSNum

theorem floor_le_roundHalfEven (x : ℚ) : ⌊x⌋ ≤ roundHalfEven x := by
  unfold roundHalfEven
  split_ifs <;> omega

theorem roundHalfEven_le_floor_add_one (x : ℚ) : roundHalfEven x ≤ ⌊x⌋ + 1 := by
  unfold roundHalfEven
  split_ifs <;> omega

theorem le_roundHalfEven {k : ℤ} {x : ℚ} (h : (k : ℚ) ≤ x) : k ≤ roundHalfEven x :=
  le_trans (Int.le_floor.mpr h) (floor_le_roundHalfEven x)

theorem roundHalfEven_le {k : ℤ} {x : ℚ} (h : x ≤ (k : ℚ)) : roundHalfEven x ≤ k := by
  by_cases hx : x = (⌊x⌋ : ℚ)
  · have h0 : x - ⌊x⌋ < 1 / 2 := by
      have : x - ⌊x⌋ = 0 := by linarith
      rw [this]; norm_num
    have hk : ⌊x⌋ ≤ k := by
      have : ((⌊x⌋ : ℤ) : ℚ) ≤ k := by rw [← hx]; exact h
      exact_mod_cast this
    unfold roundHalfEven
    rw [if_pos h0]
    exact hk
  · have hlt : (⌊x⌋ : ℚ) < x := lt_of_le_of_ne (Int.floor_le x) (Ne.symm hx)
    have hk : ⌊x⌋ < k := by
      have : ((⌊x⌋ : ℤ) : ℚ) < k := lt_of_lt_of_le hlt h
      exact_mod_cast this
    have := roundHalfEven_le_floor_add_one x
    omega

theorem roundHalfEven_mono {x y : ℚ} (h : x ≤ y) : roundHalfEven x ≤ roundHalfEven y := by
  have hf : ⌊x⌋ ≤ ⌊y⌋ := Int.floor_mono h
  rcases lt_or_eq_of_le hf with hlt | heq
  · have h1 := roundHalfEven_le_floor_add_one x
    have h2 := floor_le_roundHalfEven y
    omega
  · unfold roundHalfEven
    rw [← heq]
    have hd : x - ⌊x⌋ ≤ y - ⌊x⌋ := by linarith
    split_ifs <;> first | omega | (exfalso; linarith)

theorem ulp_pos (a : ℚ) : 0 < ulp a := zpow_pos (by norm_num) _

theorem roundHalfEven_nonneg {x : ℚ} (h : 0 ≤ x) : 0 ≤ roundHalfEven x :=
  le_roundHalfEven (by simpa using h)

theorem roundMag_nonneg {a : ℚ} (h : 0 ≤ a) : 0 ≤ roundMag a := by
  unfold roundMag
  have h1 : 0 ≤ a / ulp a := div_nonneg h (ulp_pos a).le
  have h2 := roundHalfEven_nonneg h1
  exact mul_nonneg (by exact_mod_cast h2) (ulp_pos a).le

theorem roundMag_zero : roundMag 0 = 0 := by
  simp [roundMag, roundHalfEven]

theorem binade_mono {a b : ℚ} (ha : 0 < a) (h : a ≤ b) : binade a ≤ binade b :=
  max_le_max (Int.log_mono_right ha h) le_rfl

theorem lt_zpow_binade_succ (a : ℚ) : a < (2 : ℚ) ^ (binade a + 1) := by
  have h1 : a < ((2 : ℕ) : ℚ) ^ (Int.log 2 a + 1) := Int.lt_zpow_succ_log_self (by norm_num) a
  have h2 : ((2 : ℕ) : ℚ) ^ (Int.log 2 a + 1) ≤ (2 : ℚ) ^ (binade a + 1) := by
    have : Int.log 2 a + 1 ≤ binade a + 1 := by
      have := le_max_left (Int.log 2 a) (-1022)
      unfold binade
      omega
    exact_mod_cast zpow_le_zpow_right₀ (by norm_num : (1 : ℚ) ≤ 2) this
  exact lt_of_lt_of_le h1 h2

theorem zpow_binade_le {a : ℚ} (ha : 0 < a) (h : -1022 < binade a) :
    (2 : ℚ) ^ binade a ≤ a := by
  have hb : binade a = Int.log 2 a := by
    unfold binade at h ⊢
    rcases le_total (Int.log 2 a) (-1022) with h1 | h1
    · rw [max_eq_right h1] at h
      omega
    · exact max_eq_left h1
  rw [hb]
  exact_mod_cast (Int.zpow_log_le_self (by norm_num : 1 < 2) ha : ((2 : ℕ) : ℚ) ^ Int.log 2 a ≤ a)

theorem two_zpow_split (e : ℤ) (k : ℕ) :
    (2 : ℚ) ^ (e - 52 + k) = ((2 ^ k : ℤ) : ℚ) * (2 : ℚ) ^ (e - 52) := by
  rw [zpow_add₀ (by norm_num : (2 : ℚ) ≠ 0), mul_comm]
  congr 1
  push_cast
  rw [zpow_natCast]

theorem roundMag_le_zpow (a : ℚ) : roundMag a ≤ (2 : ℚ) ^ (binade a + 1) := by
  have hu := ulp_pos a
  have h1 : a / ulp a ≤ ((2 ^ 53 : ℤ) : ℚ) := by
    rw [div_le_iff₀ hu]
    have := two_zpow_split (binade a) 53
    have h2 := lt_zpow_binade_succ a
    have h3 : binade a + 1 = binade a - 52 + (53 : ℕ) := by push_cast; ring
    rw [h3, this] at h2
    exact h2.le
  have h4 := roundHalfEven_le h1
  have h5 : (roundHalfEven (a / ulp a) : ℚ) ≤ ((2 ^ 53 : ℤ) : ℚ) := by exact_mod_cast h4
  have h3 : binade a + 1 = binade a - 52 + (53 : ℕ) := by push_cast; ring
  rw [h3, two_zpow_split]
  unfold roundMag
  exact mul_le_mul_of_nonneg_right h5 hu.le

theorem zpow_le_roundMag {a : ℚ} (ha : 0 < a) (h : -1022 < binade a) :
    (2 : ℚ) ^ binade a ≤ roundMag a := by
  have hu := ulp_pos a
  have h3 : binade a = binade a - 52 + (52 : ℕ) := by push_cast; ring
  have h1 : ((2 ^ 52 : ℤ) : ℚ) ≤ a / ulp a := by
    rw [le_div_iff₀ hu]
    have h2 := zpow_binade_le ha h
    rw [h3, two_zpow_split] at h2
    simpa [ulp] using h2
  have h4 := le_roundHalfEven h1
  have h5 : ((2 ^ 52 : ℤ) : ℚ) ≤ (roundHalfEven (a / ulp a) : ℚ) := by exact_mod_cast h4
  have h6 : (2 : ℚ) ^ binade a = ((2 ^ 52 : ℤ) : ℚ) * ulp a := by
    conv_lhs => rw [h3, two_zpow_split]
    rfl
  rw [h6]
  unfold roundMag
  exact mul_le_mul_of_nonneg_right h5 hu.le

theorem roundMag_mono {a b : ℚ} (ha : 0 ≤ a) (h : a ≤ b) : roundMag a ≤ roundMag b := by
  rcases eq_or_lt_of_le ha with rfl | ha
  · rw [roundMag_zero]
    exact roundMag_nonneg h
  · have hb : 0 < b := lt_of_lt_of_le ha h
    rcases lt_or_eq_of_le (binade_mono ha h) with hlt | heq
    · have h1 := roundMag_le_zpow a
      have h2 : (2 : ℚ) ^ (binade a + 1) ≤ (2 : ℚ) ^ binade b :=
        zpow_le_zpow_right₀ (by norm_num) (by omega)
      have h3 : -1022 < binade b := by
        have : -1022 ≤ binade a := le_max_right _ _
        omega
      exact le_trans h1 (le_trans h2 (zpow_le_roundMag hb h3))
    · have hu : ulp a = ulp b := by unfold ulp; rw [heq]
      unfold roundMag
      rw [hu]
      have h1 : a / ulp b ≤ b / ulp b := div_le_div_of_nonneg_right h (ulp_pos b).le
      have h2 := roundHalfEven_mono h1
      exact mul_le_mul_of_nonneg_right (by exact_mod_cast h2) (ulp_pos b).le

theorem roundSigned_mono {x y : ℚ} (h : x ≤ y) : roundSigned x ≤ roundSigned y := by
  unfold roundSigned
  by_cases hx : 0 ≤ x
  · have hy : 0 ≤ y := le_trans hx h
    rw [if_pos hx, if_pos hy]
    exact roundMag_mono hx h
  · rw [if_neg hx]
    have hx2 : 0 ≤ -x := by linarith
    by_cases hy : 0 ≤ y
    · rw [if_pos hy]
      have h1 := roundMag_nonneg hx2
      have h2 := roundMag_nonneg hy
      linarith
    · rw [if_neg hy]
      have hy2 : 0 ≤ -y := by linarith
      have := roundMag_mono hy2 (by linarith : -y ≤ -x)
      linarith

/-- Rounding never yields `NaN`. -/
theorem round64_ne_nan (q : ℚ) : round64 q ≠ nan := by
  unfold round64
  split_ifs <;> simp

/-- Rounding is monotone. -/
theorem round64_mono {x y : ℚ} (h : x ≤ y) : (round64 y).ge (round64 x) = true := by
  have hm := roundSigned_mono h
  have hpos : (0 : ℚ) < 2 ^ 1024 := by positivity
  unfold round64
  split_ifs <;> simp [ge] <;> linarith

/-- The order `>=` is transitive. -/
theorem ge_trans {x y z : JSNum} (h1 : x.ge y = true) (h2 : y.ge z = true) :
    x.ge z = true := by
  rcases x with _ | _ | a | _ <;> rcases y with _ | _ | b | _ <;>
    rcases z with _ | _ | c | _ <;> simp_all [ge]
  linarith

/-- A value strictly below the other is not at least the other. -/
theorem ge_eq_false_of_lt {x y : JSNum} (h : x.lt y = true) : x.ge y = false := by
  rcases x with _ | _ | a | _ <;> rcases y with _ | _ | b | _ <;> simp_all [ge, lt, gt]

/-- The nearest integer, from a distance below one half. -/
theorem roundHalfEven_eq_of_abs_lt {x : ℚ} {n : ℤ} (h : |x - n| < 1 / 2) :
    roundHalfEven x = n := by
  rw [abs_lt] at h
  by_cases hn : (n : ℚ) ≤ x
  · have hf : ⌊x⌋ = n := by
      rw [Int.floor_eq_iff]
      constructor <;> linarith
    unfold roundHalfEven
    rw [hf, if_pos (by linarith)]
  · have hf : ⌊x⌋ = n - 1 := by
      rw [Int.floor_eq_iff]
      push_cast
      constructor <;> linarith
    unfold roundHalfEven
    rw [hf]
    push_cast
    rw [if_neg (by linarith), if_pos (by linarith)]
    ring

/-- The binade of a magnitude between two consecutive powers of two. -/
theorem binade_eq {a : ℚ} {e : ℤ} (he : -1022 ≤ e) (h1 : (2 : ℚ) ^ e ≤ a)
    (h2 : a < (2 : ℚ) ^ (e + 1)) : binade a = e := by
  have ha : 0 < a := lt_of_lt_of_le (zpow_pos (by norm_num) e) h1
  have hlog : Int.log 2 a = e := by
    apply le_antisymm
    · have := (Int.lt_zpow_iff_log_lt (by norm_num : 1 < 2) ha (x := e + 1)).mp
        (by exact_mod_cast h2)
      omega
    · exact (Int.zpow_le_iff_le_log (by norm_num : 1 < 2) ha).mp (by exact_mod_cast h1)
  unfold binade
  rw [hlog]
  exact max_eq_left he

/-- Rounding in a known binade, from a distance below half a unit in the last
place. -/
theorem round64_eq {q : ℚ} {e n : ℤ} (he : -1022 ≤ e) (h1 : (2 : ℚ) ^ e ≤ q)
    (h2 : q < (2 : ℚ) ^ (e + 1)) (hn : |q / (2 : ℚ) ^ (e - 52) - n| < 1 / 2)
    (hlt : (n : ℚ) * (2 : ℚ) ^ (e - 52) < 2 ^ 1024) :
    round64 q = fin ((n : ℚ) * (2 : ℚ) ^ (e - 52)) := by
  have hq : 0 ≤ q := le_trans (zpow_pos (by norm_num) e).le h1
  have hb := binade_eq he h1 h2
  have hr : roundSigned q = (n : ℚ) * (2 : ℚ) ^ (e - 52) := by
    unfold roundSigned roundMag ulp
    rw [if_pos hq, hb, roundHalfEven_eq_of_abs_lt hn]
  have hn0 : 0 ≤ n := by
    have := roundHalfEven_nonneg (div_nonneg hq (zpow_pos (by norm_num : (0 : ℚ) < 2) (e - 52)).le)
    rwa [roundHalfEven_eq_of_abs_lt hn] at this
  have hnn : (0 : ℚ) ≤ (n : ℚ) * (2 : ℚ) ^ (e - 52) :=
    mul_nonneg (by exact_mod_cast hn0) (zpow_pos (by norm_num) _).le
  unfold round64
  rw [hr, if_neg (not_le.mpr hlt), if_neg]
  have hpos : (0 : ℚ) < 2 ^ 1024 := by positivity
  intro h
  linarith

end JSNum

namespace JSNum

/-- The slider value `0.1` times `1000000` is `100000` in doubles. -/
theorem round64_tenth_million : round64 (double_0_1 * 1000000) = fin 100000 := by
  have h := round64_eq (q := double_0_1 * 1000000) (e := 16) (n := 6871947673600000)
    (by norm_num) (by norm_num [double_0_1]) (by norm_num [double_0_1])
    (by rw [abs_lt]; constructor <;> norm_num [double_0_1]) (by norm_num)
  rw [h]
  norm_num

/-- The slider value `8.3` times `1000000` is just above `8300000` in doubles. -/
theorem round64_8_3_million :
    round64 (double_8_3 * 1000000) = fin (8912057139200001 / 1073741824) := by
  have h := round64_eq (q := double_8_3 * 1000000) (e := 22) (n := 8912057139200001)
    (by norm_num) (by norm_num [double_8_3]) (by norm_num [double_8_3])
    (by rw [abs_lt]; constructor <;> norm_num [double_8_3]) (by norm_num)
  rw [h]
  norm_num

/-- The product `15 * 1000000` is exact. -/
theorem round64_fifteen_million : round64 (15 * 1000000) = fin 15000000 := by
  have h := round64_eq (q := 15 * 1000000) (e := 23) (n := 8053063680000000)
    (by norm_num) (by norm_num) (by norm_num)
    (by rw [abs_lt]; constructor <;> norm_num) (by norm_num)
  rw [h]
  norm_num

end JSNum
/-! ## Auxiliary lemmas: the threshold -/

theorem JSNum.ofNat_def (n : Nat) : (OfNat.ofNat n : JSNum) = JSNum.fin (n : ℚ) := rfl

/-- Multiplying by the literal `1000000` rounds the scaled value of a finite
number and leaves the special values alone. -/
theorem JSNum.mul_million (x : JSNum) :
    x.mul 1000000 =
      match x with
      | .fin q => JSNum.round64 (q * 1000000)
      | y => y := by
  rcases x with _ | _ | q | _ <;> simp [JSNum.mul, JSNum.ofNat_def, JSNum.signedInf]

/-- Whatever is at least some value is at least `-Infinity`. -/
theorem JSNum.ge_negInf_of_ge {x y : JSNum} (h : x.ge y = true) : x.ge .negInf = true := by
  rcases x with _ | _ | a | _ <;> rcases y with _ | _ | b | _ <;> simp_all [JSNum.ge]

/-- Only `Infinity` is at least `Infinity`, and it is at least every number. -/
theorem JSNum.posInf_ge_of_ge {x y : JSNum} (h : x.ge .posInf = true) (hy : y ≠ .nan) :
    x.ge y = true := by
  rcases x with _ | _ | a | _ <;> rcases y with _ | _ | b | _ <;> simp_all [JSNum.ge]

/-- A liquidity that clears the larger threshold clears the smaller one. -/
theorem JSNum.ge_mul_of_lt (L t1 t2 : JSNum) (h : t1.lt t2 = true)
    (hL : L.ge (t2.mul 1000000) = true) : L.ge (t1.mul 1000000) = true := by
  rw [JSNum.mul_million] at hL ⊢
  rcases t1 with _ | _ | a | _ <;> rcases t2 with _ | _ | b | _ <;>
    simp [JSNum.lt, JSNum.gt] at h
  · exact JSNum.ge_negInf_of_ge hL
  · exact JSNum.ge_negInf_of_ge hL
  · exact JSNum.ge_trans hL (JSNum.round64_mono (by linarith))
  · exact JSNum.posInf_ge_of_ge hL (JSNum.round64_ne_nan _)

/-! ## Auxiliary lemmas: sorting -/

/-- On records with finite returns the comparator orders by magnitude. -/
theorem sortLE_iff_of_finite (a b : Asset) (ha : a.annualized_return.isFinite = true)
    (hb : b.annualized_return.isFinite = true) : sortLE a b ↔ absReturnGE a b := by
  unfold sortLE absReturnGE compareFn
  rcases hx : a.annualized_return with _ | _ | x | _ <;> simp [hx, JSNum.isFinite] at ha
  rcases hy : b.annualized_return with _ | _ | y | _ <;> simp [hy, JSNum.isFinite] at hb
  simp [Math.abs, JSNum.sub, JSNum.gt, JSNum.ge, JSNum.ofNat_def]

/-- Insertion keeps a list sorted when the relation is total and transitive on
the elements at hand. -/
theorem sorted_orderedInsert_on {α : Type} (r : α → α → Prop) [DecidableRel r] (P : α → Prop)
    (htot : ∀ a b, P a → P b → r a b ∨ r b a)
    (htrans : ∀ a b c, P a → P b → P c → r a b → r b c → r a c)
    (a : α) (ha : P a) :
    ∀ l : List α, (∀ b ∈ l, P b) → l.Sorted r → (l.orderedInsert r a).Sorted r
  | [], _, _ => List.sorted_singleton a
  | b :: l, hl, h => by
    have hb : P b := hl b (List.mem_cons_self _ _)
    have hl2 : ∀ c ∈ l, P c := fun c hc => hl c (List.mem_cons_of_mem _ hc)
    by_cases h1 : r a b
    · rw [List.orderedInsert, if_pos h1, List.sorted_cons]
      refine ⟨?_, h⟩
      intro c hc
      rcases List.mem_cons.mp hc with rfl | hc
      · exact h1
      · exact htrans a b c ha hb (hl2 c hc) h1 (List.rel_of_sorted_cons h c hc)
    · rw [List.orderedInsert, if_neg h1, List.sorted_cons]
      refine ⟨?_, sorted_orderedInsert_on r P htot htrans a ha l hl2 h.of_cons⟩
      intro c hc
      rcases (List.mem_orderedInsert r).mp hc with rfl | hc
      · exact (htot c b ha hb).resolve_left h1
      · exact List.rel_of_sorted_cons h c hc

/-- Insertion sort sorts when the relation is total and transitive on the
elements of the list. -/
theorem sorted_insertionSort_on {α : Type} (r : α → α → Prop) [DecidableRel r] (P : α → Prop)
    (htot : ∀ a b, P a → P b → r a b ∨ r b a)
    (htrans : ∀ a b c, P a → P b → P c → r a b → r b c → r a c) :
    ∀ l : List α, (∀ b ∈ l, P b) → (l.insertionSort r).Sorted r
  | [], _ => List.sorted_nil
  | a :: l, hl => by
    have hl2 : ∀ c ∈ l, P c := fun c hc => hl c (List.mem_cons_of_mem _ hc)
    exact sorted_orderedInsert_on r P htot htrans a (hl a (List.mem_cons_self _ _)) _
      (fun b hb => hl2 b ((List.mem_insertionSort r).mp hb))
      (sorted_insertionSort_on r P htot htrans l hl2)

/-- The result of `arraySort` is sorted under the comparator when all returns
are finite. -/
theorem arraySort_sorted (l : List Asset)
    (hfin : ∀ a ∈ l, a.annualized_return.isFinite = true) : (arraySort l).Sorted sortLE := by
  refine sorted_insertionSort_on sortLE (fun a => a.annualized_return.isFinite = true) ?_ ?_ l hfin
  · intro a b ha hb
    rw [sortLE_iff_of_finite a b ha hb, sortLE_iff_of_finite b a hb ha]
    unfold absReturnGE
    rcases hx : a.annualized_return with _ | _ | x | _ <;> simp [hx, JSNum.isFinite] at ha
    rcases hy : b.annualized_return with _ | _ | y | _ <;> simp [hy, JSNum.isFinite] at hb
    simp only [Math.abs, JSNum.ge, decide_eq_true_eq]
    exact le_total _ _
  · intro a b c ha hb hc
    rw [sortLE_iff_of_finite a b ha hb, sortLE_iff_of_finite b c hb hc,
      sortLE_iff_of_finite a c ha hc]
    unfold absReturnGE
    rcases hx : a.annualized_return with _ | _ | x | _ <;> simp [hx, JSNum.isFinite] at ha
    rcases hy : b.annualized_return with _ | _ | y | _ <;> simp [hy, JSNum.isFinite] at hb
    rcases hz : c.annualized_return with _ | _ | z | _ <;> simp [hz, JSNum.isFinite] at hc
    simp only [Math.abs, JSNum.ge, decide_eq_true_eq]
    exact fun h1 h2 => le_trans h2 h1


/-! ## Auxiliary lemmas: `fetchData` -/

/-- Sorting keeps the number of records. -/
theorem length_arraySort (l : List Asset) : (arraySort l).length = l.length :=
  List.length_insertionSort sortLE l

/-- The assets stored by a successful cycle are the sorted records of the body,
whether `Math.max` then throws or not. -/
theorem fetchData_success_assets (engine : Engine) (s : State) (e : Option String)
    (l : List Asset) (now : Nat) :
    (fetchData engine s (.resolved ⟨true, e, some l⟩) now).assets = arraySort l := by
  simp only [fetchData, run, List.foldl, step, fetchSettle, if_true]
  split_ifs <;> rfl

/-- A successful cycle over a list the engine can spread: the whole state. -/
theorem fetchData_success_within (engine : Engine) (s : State) (e : Option String)
    (l : List Asset) (now : Nat) (hlen : l.length ≤ engine.maxArguments) :
    fetchData engine s (.resolved ⟨true, e, some l⟩) now =
      filterEffect { filterEffect (fetchStart s) with
        assets := arraySort l
        maxLiquidity :=
          Math.ceil ((Math.max ((arraySort l).map fun a => a.liquidity_usd)).div 1000000)
        lastUpdate := some now
        loading := false } := by
  have h : (arraySort l).length ≤ engine.maxArguments := by rwa [length_arraySort]
  simp only [fetchData, run, List.foldl, step, fetchSettle, if_true, if_pos h]

/-- A successful cycle over a list longer than the engine can spread: the whole
state. -/
theorem fetchData_success_beyond (engine : Engine) (s : State) (e : Option String)
    (l : List Asset) (now : Nat) (hlen : engine.maxArguments < l.length) :
    fetchData engine s (.resolved ⟨true, e, some l⟩) now =
      filterEffect (fetchCatch { filterEffect (fetchStart s) with assets := arraySort l }) := by
  have h : ¬ (arraySort l).length ≤ engine.maxArguments := by
    rw [length_arraySort]
    exact not_le.mpr hlen
  simp only [fetchData, run, List.foldl, step, fetchSettle, if_true, if_neg h]

/-- Folding `Math.max` over finite liquidities from a finite start yields the
largest value met. -/
theorem foldl_max2_finite (l : List Asset)
    (hfin : ∀ a ∈ l, a.liquidity_usd.isFinite = true) (m : ℚ) :
    ∃ M : ℚ, (M = m ∨ ∃ a ∈ l, a.liquidity_usd = .fin M) ∧ m ≤ M ∧
      (∀ a ∈ l, ∀ L : ℚ, a.liquidity_usd = .fin L → L ≤ M) ∧
      (l.map fun a => a.liquidity_usd).foldl Math.max2 (.fin m) = .fin M := by
  induction l generalizing m with
  | nil => exact ⟨m, Or.inl rfl, le_refl m, by simp, rfl⟩
  | cons b l ih =>
    have hb := hfin b (List.mem_cons_self _ _)
    have hl : ∀ a ∈ l, a.liquidity_usd.isFinite = true :=
      fun a ha => hfin a (List.mem_cons_of_mem _ ha)
    rcases hx : b.liquidity_usd with _ | _ | x | _ <;> simp [hx, JSNum.isFinite] at hb
    by_cases hgt : m < x
    · obtain ⟨M, hM, hle, hall, hfold⟩ := ih hl x
      refine ⟨M, ?_, le_trans hgt.le hle, ?_, ?_⟩
      · rcases hM with rfl | ⟨a, ha, haM⟩
        · exact Or.inr ⟨b, List.mem_cons_self _ _, hx⟩
        · exact Or.inr ⟨a, List.mem_cons_of_mem _ ha, haM⟩
      · intro a ha L hL
        rcases List.mem_cons.mp ha with rfl | ha
        · rw [hx] at hL
          cases hL
          exact hle
        · exact hall a ha L hL
      · simpa [List.foldl, hx, Math.max2, JSNum.isNaN, JSNum.gt, hgt] using hfold
    · obtain ⟨M, hM, hle, hall, hfold⟩ := ih hl m
      refine ⟨M, ?_, hle, ?_, ?_⟩
      · rcases hM with rfl | ⟨a, ha, haM⟩
        · exact Or.inl rfl
        · exact Or.inr ⟨a, List.mem_cons_of_mem _ ha, haM⟩
      · intro a ha L hL
        rcases List.mem_cons.mp ha with rfl | ha
        · rw [hx] at hL
          cases hL
          exact le_trans (not_lt.mp hgt) hle
        · exact hall a ha L hL
      · simpa [List.foldl, hx, Math.max2, JSNum.isNaN, JSNum.gt, hgt] using hfold

/-- The maximum `Math.max` finds over a non-empty list of finite liquidities is
the largest of them. -/
theorem Math.max_liquidity_finite (l : List Asset) (hne : l ≠ [])
    (hfin : ∀ a ∈ l, a.liquidity_usd.isFinite = true) :
    ∃ M : ℚ, (∃ a ∈ l, a.liquidity_usd = .fin M) ∧
      (∀ a ∈ l, ∀ L : ℚ, a.liquidity_usd = .fin L → L ≤ M) ∧
      Math.max (l.map fun a => a.liquidity_usd) = .fin M := by
  rcases l with _ | ⟨b, l⟩
  · exact absurd rfl hne
  · have hb := hfin b (List.mem_cons_self _ _)
    have hl : ∀ a ∈ l, a.liquidity_usd.isFinite = true :=
      fun a ha => hfin a (List.mem_cons_of_mem _ ha)
    rcases hx : b.liquidity_usd with _ | _ | x | _ <;> simp [hx, JSNum.isFinite] at hb
    obtain ⟨M, hM, hle, hall, hfold⟩ := foldl_max2_finite l hl x
    refine ⟨M, ?_, ?_, ?_⟩
    · rcases hM with rfl | ⟨a, ha, haM⟩
      · exact ⟨b, List.mem_cons_self _ _, hx⟩
      · exact ⟨a, List.mem_cons_of_mem _ ha, haM⟩
    · intro a ha L hL
      rcases List.mem_cons.mp ha with rfl | ha
      · rw [hx] at hL
        cases hL
        exact hle
      · exact hall a ha L hL
    · simpa [Math.max, List.foldl, hx, Math.max2, JSNum.isNaN, JSNum.gt] using hfold

/-- On a successful body with a non-empty list of finite liquidities that the
engine can spread, the slider bound is the ceiling of the largest liquidity
divided by one million. -/
theorem fetchData_maxLiquidity_nonempty (engine : Engine) (s : State) (e : Option String)
    (l : List Asset) (now : Nat) (hne : l ≠ []) (hlen : l.length ≤ engine.maxArguments)
    (hfin : ∀ a ∈ l, a.liquidity_usd.isFinite = true) :
    ∃ M : ℚ, (∃ a ∈ l, a.liquidity_usd = .fin M) ∧
      (∀ a ∈ l, ∀ L : ℚ, a.liquidity_usd = .fin L → L ≤ M) ∧
      (fetchData engine s (.resolved ⟨true, e, some l⟩) now).maxLiquidity =
        Math.ceil (JSNum.round64 (M / 1000000)) := by
  have hmem : ∀ a, a ∈ arraySort l ↔ a ∈ l := fun a => List.mem_insertionSort sortLE
  have hne2 : arraySort l ≠ [] := by
    intro h
    have := length_arraySort l
    rw [h] at this
    exact hne (List.length_eq_zero.mp this.symm)
  obtain ⟨M, ⟨a, ha, haM⟩, hall, hmax⟩ :=
    Math.max_liquidity_finite (arraySort l) hne2 (fun a ha => hfin a ((hmem a).mp ha))
  refine ⟨M, ⟨a, (hmem a).mp ha, haM⟩, fun b hb => hall b ((hmem b).mpr hb), ?_⟩
  rw [fetchData_success_within engine s e l now hlen]
  show Math.ceil ((Math.max ((arraySort l).map fun a => a.liquidity_usd)).div 1000000) = _
  rw [hmax]
  simp [JSNum.div, JSNum.ofNat_def]

/-! ## The classifier (C1, C10) -/

/-- C1: `getColorForReturn` follows the threshold table on `abs(x)` with strict
comparisons, first match wins: above 50 the strong colours, above 20 and at
most 50 the medium ones, above 10 and at most 20 the weak ones, above 5 and at
most 10 the modest ones, at most 5 the neutral colour; the long colour when
`x > 0` and the short colour when `x <= 0`.  The values 50, -50, 20, 10, 5 and
0 fall in the bucket below their threshold. -/
theorem getColorForReturn_table (x : JSNum) :
    ((Math.abs x).gt 50 = true →
        (x.gt 0 = true → getColorForReturn x = "rgb(34, 197, 94)") ∧
        (x.le 0 = true → getColorForReturn x = "rgb(239, 68, 68)")) ∧
    ((Math.abs x).gt 20 = true → (Math.abs x).le 50 = true →
        (x.gt 0 = true → getColorForReturn x = "rgb(74, 222, 128)") ∧
        (x.le 0 = true → getColorForReturn x = "rgb(248, 113, 113)")) ∧
    ((Math.abs x).gt 10 = true → (Math.abs x).le 20 = true →
        (x.gt 0 = true → getColorForReturn x = "rgb(134, 239, 172)") ∧
        (x.le 0 = true → getColorForReturn x = "rgb(252, 165, 165)")) ∧
    ((Math.abs x).gt 5 = true → (Math.abs x).le 10 = true →
        (x.gt 0 = true → getColorForReturn x = "rgb(187, 247, 208)") ∧
        (x.le 0 = true → getColorForReturn x = "rgb(254, 202, 202)")) ∧
    ((Math.abs x).le 5 = true → getColorForReturn x = "rgb(229, 231, 235)") ∧
    getColorForReturn 50 = "rgb(74, 222, 128)" ∧
    getColorForReturn (.fin (-50)) = "rgb(248, 113, 113)" ∧
    getColorForReturn 20 = "rgb(134, 239, 172)" ∧
    getColorForReturn 10 = "rgb(187, 247, 208)" ∧
    getColorForReturn 5 = "rgb(229, 231, 235)" ∧
    getColorForReturn 0 = "rgb(229, 231, 235)" := by
  refine ⟨?_, ?_, ?_, ?_, ?_, by decide, by decide, by decide, by decide, by decide, by decide⟩ <;>
  · rcases x with _ | _ | q | _
    · simp [getColorForReturn, Math.abs, JSNum.gt, JSNum.le, JSNum.ge, JSNum.ofNat_def]
    · simp [getColorForReturn, Math.abs, JSNum.gt, JSNum.le, JSNum.ge, JSNum.ofNat_def]
    · simp only [getColorForReturn, Math.abs, JSNum.gt, JSNum.le, JSNum.ge, JSNum.ofNat_def,
        decide_eq_true_eq, Nat.cast_ofNat]
      rcases abs_cases q with ⟨h, h0⟩ | ⟨h, h0⟩ <;> rw [h] <;> intros <;>
        (try constructor) <;> intros <;> split_ifs <;> first | rfl | (exfalso; linarith)
    · simp [getColorForReturn, Math.abs, JSNum.gt, JSNum.le, JSNum.ge, JSNum.ofNat_def]

/-- C10: at a return of 7 percent (and of -7 percent) the grid is painted with a
colour that the legend does not show: the legend has no swatch for the two
modest buckets, and labels the neutral grey as the whole range 0-10%. -/
theorem getColorForReturn_not_in_legend :
    getColorForReturn 7 = "rgb(187, 247, 208)" ∧
    getColorForReturn 7 ∉ legendColors ∧
    getColorForReturn (.fin (-7)) = "rgb(254, 202, 202)" ∧
    getColorForReturn (.fin (-7)) ∉ legendColors ∧
    legendColors.length = 7 ∧
    ("rgb(229, 231, 235)", "0-10%") ∈ legend ∧
    render { State.init with loading := false, filteredAssets := [assetModest] } =
      .grid [(assetModest, "rgb(187, 247, 208)")] := by
  refine ⟨by decide, by decide, by decide, by decide, by decide, by decide, by decide⟩


/-! ## The liquidity filter (C2, C3) -/

/-- C2: the list computed by the filter effect is exactly the catalog filtered,
in the catalog's order, by `liquidity_usd >= m * 1000000`, the product being
the component's own: the double nearest to the exact product.  So a record
whose liquidity is a double at or above the exact product is kept.  The list
is empty when every liquidity is below the product, and, where the product is
exact, when every liquidity in millions is below `m`, as for a largest
liquidity of 11,700,000 under `m = 15`.  Every transition leaves the filtered
list in this relation to the stored assets and the threshold. -/
theorem filterEffect_visible (s : State) :
    (filterEffect s).filteredAssets =
        s.assets.filter (fun a => a.liquidity_usd.ge (s.liquidityFilter.mul 1000000)) ∧
    (filterEffect s).assets = s.assets ∧
    (filterEffect s).filteredAssets.Sublist s.assets ∧
    (∀ a, a ∈ (filterEffect s).filteredAssets ↔
        a ∈ s.assets ∧ a.liquidity_usd.ge (s.liquidityFilter.mul 1000000) = true) ∧
    (∀ M : ℚ, s.liquidityFilter = .fin M →
        s.liquidityFilter.mul 1000000 = JSNum.round64 (M * 1000000)) ∧
    (∀ M : ℚ, s.liquidityFilter = .fin M → ∀ (a : Asset) (L : ℚ), a.liquidity_usd = .fin L →
        a.liquidity_usd.isDouble = true → a ∈ s.assets → M * 1000000 ≤ L →
        a ∈ (filterEffect s).filteredAssets) ∧
    ((∀ a ∈ s.assets, a.liquidity_usd.lt (s.liquidityFilter.mul 1000000) = true) →
        (filterEffect s).filteredAssets = []) ∧
    (∀ M : ℚ, s.liquidityFilter = .fin M →
        JSNum.round64 (M * 1000000) = .fin (M * 1000000) →
        (∀ a ∈ s.assets, ∃ L : ℚ, a.liquidity_usd = .fin L ∧ L / 1000000 < M) →
        (filterEffect s).filteredAssets = []) ∧
    (∀ (engine : Engine) (e : Event), (step engine s e).filteredAssets =
        (step engine s e).assets.filter
          (fun a => a.liquidity_usd.ge ((step engine s e).liquidityFilter.mul 1000000))) ∧
    (filterEffect exampleCatalog).filteredAssets = [] := by
  refine ⟨rfl, rfl, ?_, ?_, ?_, ?_, ?_, ?_, ?_, ?_⟩
  · exact List.filter_sublist _
  · intro a
    simp [filterEffect]
  · intro M hM
    rw [hM, JSNum.mul_million]
  · intro M hM a L hL hd ha hle
    have hr : JSNum.round64 L = .fin L := by
      simpa [hL, JSNum.isDouble] using hd
    have hge : (JSNum.fin L).ge (JSNum.round64 (M * 1000000)) = true := by
      rw [← hr]
      exact JSNum.round64_mono hle
    simp only [filterEffect, List.mem_filter]
    exact ⟨ha, by rw [hM, JSNum.mul_million, hL]; exact hge⟩
  · intro hall
    simp only [filterEffect, List.filter_eq_nil_iff]
    intro a ha
    rw [JSNum.ge_eq_false_of_lt (hall a ha)]
    simp
  · intro M hM hex hall
    simp only [filterEffect, hM, JSNum.mul_million, hex, List.filter_eq_nil_iff]
    intro a ha
    obtain ⟨L, hL, hlt⟩ := hall a ha
    rw [div_lt_iff₀ (by norm_num)] at hlt
    simp [hL, JSNum.ge, hlt]
  · intro engine e
    cases e <;> rfl
  · have h15 : exampleCatalog.liquidityFilter.mul 1000000 = .fin 15000000 := by
      rw [JSNum.mul_million]
      exact JSNum.round64_fifteen_million
    simp only [filterEffect, h15, List.filter_eq_nil_iff]
    intro a ha
    have : a = assetBTC ∨ a = assetETH := by simpa [exampleCatalog] using ha
    rcases this with rfl | rfl <;> norm_num [assetBTC, assetETH, JSNum.ge]

/-- The threshold is the rounded product: at the slider value `0.1` a record
with a liquidity of `100000` is shown, and at `8.3` a record with `8300000` is
not. -/
theorem filterEffect_at_slider_steps :
    (filterEffect { State.init with
        assets := [assetSmall], liquidityFilter := .fin double_0_1 }).filteredAssets =
      [assetSmall] ∧
    (filterEffect { State.init with
        assets := [assetMid], liquidityFilter := .fin double_8_3 }).filteredAssets = [] := by
  constructor
  · simp only [filterEffect, JSNum.mul_million, JSNum.round64_tenth_million]
    norm_num [State.init, assetSmall, JSNum.ge]
  · simp only [filterEffect, JSNum.mul_million, JSNum.round64_8_3_million]
    norm_num [State.init, assetMid, JSNum.ge]

/-- C3: filtering is monotone in the threshold: for `t1 < t2` the visible list
for `t2` is a sub-list of the visible list for `t1`, so each of its assets is
visible for `t1` too. -/
theorem visible_antitone (s : State) (t1 t2 : JSNum) (h : t1.lt t2 = true) :
    ((filterEffect { s with liquidityFilter := t2 }).filteredAssets).Sublist
        (filterEffect { s with liquidityFilter := t1 }).filteredAssets ∧
    ∀ a, a ∈ (filterEffect { s with liquidityFilter := t2 }).filteredAssets →
        a ∈ (filterEffect { s with liquidityFilter := t1 }).filteredAssets := by
  have hsub : ((filterEffect { s with liquidityFilter := t2 }).filteredAssets).Sublist
      (filterEffect { s with liquidityFilter := t1 }).filteredAssets := by
    simp only [filterEffect]
    apply List.monotone_filter_right
    intro a ha
    exact JSNum.ge_mul_of_lt _ _ _ h ha
  exact ⟨hsub, fun a ha => hsub.subset ha⟩

/-- C3 at the thresholds 0 and 1 over the sample catalog. -/
theorem visible_antitone_witness :
    (0 : JSNum).lt 1 = true ∧
    (((filterEffect { exampleCatalog with liquidityFilter := 1 }).filteredAssets).Sublist
        (filterEffect { exampleCatalog with liquidityFilter := 0 }).filteredAssets ∧
      ∀ a, a ∈ (filterEffect { exampleCatalog with liquidityFilter := 1 }).filteredAssets →
        a ∈ (filterEffect { exampleCatalog with liquidityFilter := 0 }).filteredAssets) :=
  ⟨by decide, visible_antitone exampleCatalog 0 1 (by decide)⟩

/-! ## `fetchData` on success (C4, C7, C9) -/

/-- Within the engine's argument limit and with all returns finite, one
`fetchData` cycle on a successful body stores a permutation of the body's
records along which the magnitude of the return never increases, and leaves
the error message `null`; the same body gives the same stored order from any
prior state and at any time, sorting the stored list again changes nothing,
and two records keep their input order unless the later one has the strictly
larger magnitude.  All but the error message hold beyond the limit too. -/
theorem fetchData_success_sorted (engine : Engine) (s : State) (e : Option String)
    (l : List Asset) (now : Nat)
    (hfin : ∀ a ∈ l, a.annualized_return.isFinite = true) :
    (fetchData engine s (.resolved ⟨true, e, some l⟩) now).assets.Perm l ∧
    (fetchData engine s (.resolved ⟨true, e, some l⟩) now).assets.Pairwise absReturnGE ∧
    (l.length ≤ engine.maxArguments →
        (fetchData engine s (.resolved ⟨true, e, some l⟩) now).error = none) ∧
    (∀ (s2 : State) (e2 : Option String) (now2 : Nat),
        (fetchData engine s2 (.resolved ⟨true, e2, some l⟩) now2).assets =
          (fetchData engine s (.resolved ⟨true, e, some l⟩) now).assets) ∧
    arraySort (fetchData engine s (.resolved ⟨true, e, some l⟩) now).assets =
        (fetchData engine s (.resolved ⟨true, e, some l⟩) now).assets ∧
    (∀ a b, [a, b].Sublist l → absReturnGE a b →
        [a, b].Sublist (fetchData engine s (.resolved ⟨true, e, some l⟩) now).assets) := by
  have hsorted := arraySort_sorted l hfin
  have hmem : ∀ a ∈ arraySort l, a.annualized_return.isFinite = true :=
    fun a ha => hfin a ((List.mem_insertionSort sortLE).mp ha)
  refine ⟨?_, ?_, ?_, ?_, ?_, ?_⟩
  · rw [fetchData_success_assets]
    exact List.perm_insertionSort sortLE l
  · rw [fetchData_success_assets]
    exact List.Pairwise.imp_of_mem
      (fun {a b} ha hb hab => (sortLE_iff_of_finite a b (hmem a ha) (hmem b hb)).mp hab) hsorted
  · intro hlen
    rw [fetchData_success_within engine s e l now hlen]
    rfl
  · intro s2 e2 now2
    rw [fetchData_success_assets, fetchData_success_assets]
  · rw [fetchData_success_assets]
    exact List.Sorted.insertionSort_eq hsorted
  · intro a b hab hge
    rw [fetchData_success_assets]
    have ha : a ∈ l := hab.subset (by simp)
    have hb : b ∈ l := hab.subset (by simp)
    exact List.pair_sublist_insertionSort
      ((sortLE_iff_of_finite a b (hfin a ha) (hfin b hb)).mpr hge) hab

/-- C4: on a successful body with one record more than the engine takes
arguments, all returns finite, `Math.max(...)` throws after the sorted assets
are stored, and the cycle ends with the error message of the `catch` block
set instead of `null`; the slider bound and the last-update time stay those
of the prior state.  So it is for 130000 records on an engine that takes
125000 arguments. -/
theorem fetchData_oversized_body_sets_error (engine : Engine) (s : State)
    (e : Option String) (a : Asset) (now : Nat) :
    (fetchData engine s
        (.resolved ⟨true, e, some (List.replicate (engine.maxArguments + 1) a)⟩) now).error =
      some "Failed to fetch data from server" ∧
    (fetchData engine s
        (.resolved ⟨true, e, some (List.replicate (engine.maxArguments + 1) a)⟩) now).assets.Perm
      (List.replicate (engine.maxArguments + 1) a) ∧
    (fetchData engine s
        (.resolved ⟨true, e, some (List.replicate (engine.maxArguments + 1) a)⟩)
        now).maxLiquidity = s.maxLiquidity ∧
    (fetchData engine s
        (.resolved ⟨true, e, some (List.replicate (engine.maxArguments + 1) a)⟩)
        now).lastUpdate = s.lastUpdate ∧
    assetBTC.annualized_return.isFinite = true ∧
    (fetchData sampleEngine State.init
        (.resolved ⟨true, none, some (List.replicate 130000 assetBTC)⟩) 1).error =
      some "Failed to fetch data from server" := by
  have h1 := fetchData_success_beyond engine s e (List.replicate (engine.maxArguments + 1) a)
    now (by rw [List.length_replicate]; exact Nat.lt_succ_self _)
  have h2 := fetchData_success_beyond sampleEngine State.init none
    (List.replicate 130000 assetBTC) 1
    (by rw [List.length_replicate]; show 125000 < 130000; decide)
  refine ⟨?_, ?_, ?_, ?_, rfl, ?_⟩
  · rw [h1]; rfl
  · rw [fetchData_success_assets]
    exact List.perm_insertionSort sortLE _
  · rw [h1]; rfl
  · rw [h1]; rfl
  · rw [h2]; rfl

/-- C7: on a successful body with an empty asset list the slider bound becomes
`-Infinity`, the maximum of no arguments, whatever the prior state; the bound
1000 of the initial state is not restored. -/
theorem fetchData_empty_maxLiquidity (engine : Engine) (s : State) (e : Option String)
    (now : Nat) :
    (fetchData engine s (.resolved ⟨true, e, some []⟩) now).maxLiquidity = .negInf ∧
    (fetchData engine s (.resolved ⟨true, e, some []⟩) now).maxLiquidity ≠
      State.init.maxLiquidity ∧
    (fetchData engine s (.resolved ⟨true, e, some []⟩) now).error = none ∧
    State.init.maxLiquidity = 1000 := by
  rw [fetchData_success_within engine s e [] now (Nat.zero_le _)]
  refine ⟨by rfl, ?_, rfl, rfl⟩
  show (JSNum.negInf : JSNum) ≠ JSNum.fin _
  exact fun h => JSNum.noConfusion h

/-- C9, refuted as stated: a successful body whose only record has a `NaN`
mark price is stored with that record in it. -/
theorem fetchData_keeps_corrupt_record :
    assetCorrupt.allFinite = false ∧
    assetCorrupt.mark_price = .nan ∧
    (fetchData sampleEngine State.init (successBody [assetCorrupt]) 1).assets =
      [assetCorrupt] ∧
    ¬ (∀ a ∈ (fetchData sampleEngine State.init (successBody [assetCorrupt]) 1).assets,
        a.allFinite = true) := by
  have h : (fetchData sampleEngine State.init (successBody [assetCorrupt]) 1).assets =
      [assetCorrupt] := fetchData_success_assets sampleEngine State.init none [assetCorrupt] 1
  refine ⟨by decide, rfl, h, ?_⟩
  rw [h]
  intro hall
  exact absurd (hall assetCorrupt (List.mem_singleton.mpr rfl)) (by decide)

/-- C9, amended: a successful cycle excludes no record: the stored assets are
a permutation of all the records of the body, so each record of the body is
stored, whether its numeric fields are finite or not. -/
theorem fetchData_success_keeps_all (engine : Engine) (s : State) (e : Option String)
    (l : List Asset) (now : Nat) :
    (fetchData engine s (.resolved ⟨true, e, some l⟩) now).assets.Perm l ∧
    (fetchData engine s (.resolved ⟨true, e, some l⟩) now).assets.length = l.length ∧
    (∀ a, a ∈ (fetchData engine s (.resolved ⟨true, e, some l⟩) now).assets ↔ a ∈ l) := by
  rw [fetchData_success_assets]
  exact ⟨List.perm_insertionSort sortLE l, List.length_insertionSort sortLE l,
    fun a => List.mem_insertionSort sortLE⟩

/-! ## `fetchData` on failure (C5) and the order of arrival (C6) -/

/-- C5, refuted as stated: a body with `success: false` and the empty string
as `error` carries an error string, and the stored message is the fallback,
not that string. -/
theorem empty_error_string_gets_fallback :
    (fetchData sampleEngine State.init (.resolved ⟨false, some "", none⟩) 1).error =
      some "Failed to fetch data" ∧
    (fetchData sampleEngine State.init (.resolved ⟨false, some "", none⟩) 1).error ≠
      some "" := by
  decide

/-- C5, amended: on a body with `success: false` the error message is the
server's string when that is present and not empty, and the fallback
"Failed to fetch data" when it is absent or empty; the stored assets, the
slider bound and the last-update time are those of the prior state, and the
loading flag is cleared. -/
theorem fetchData_failure (engine : Engine) (s : State) (d : ResponseData) (now : Nat)
    (h : d.success = false) :
    (∀ msg, d.error = some msg → msg ≠ "" →
        (fetchData engine s (.resolved d) now).error = some msg) ∧
    (d.error = none ∨ d.error = some "" →
        (fetchData engine s (.resolved d) now).error = some "Failed to fetch data") ∧
    (fetchData engine s (.resolved d) now).assets = s.assets ∧
    (fetchData engine s (.resolved d) now).maxLiquidity = s.maxLiquidity ∧
    (fetchData engine s (.resolved d) now).lastUpdate = s.lastUpdate ∧
    (fetchData engine s (.resolved d) now).loading = false := by
  have hs : fetchData engine s (.resolved d) now =
      filterEffect { filterEffect (fetchStart s) with
        error := some (orElse d.error "Failed to fetch data"), loading := false } := by
    simp [fetchData, run, step, fetchSettle, h]
  rw [hs]
  refine ⟨?_, ?_, rfl, rfl, rfl, rfl⟩
  · intro msg hmsg hne
    simp [filterEffect, orElse, hmsg, hne]
  · rintro (hd | hd) <;> simp [filterEffect, orElse, hd]

/-- C5 on the body `success: false, error: "rate limited"` after a successful
snapshot. -/
theorem fetchData_failure_witness :
    (ResponseData.mk false (some "rate limited") none).success = false ∧
    (fetchData sampleEngine exampleCatalog
        (.resolved ⟨false, some "rate limited", none⟩) 2).error = some "rate limited" ∧
    (fetchData sampleEngine exampleCatalog
        (.resolved ⟨false, some "rate limited", none⟩) 2).assets = [assetBTC, assetETH] :=
  ⟨rfl,
    (fetchData_failure sampleEngine exampleCatalog ⟨false, some "rate limited", none⟩ 2 rfl).1
      "rate limited" rfl (by decide),
    (fetchData_failure sampleEngine exampleCatalog ⟨false, some "rate limited", none⟩ 2
      rfl).2.2.1⟩

/-- C6, refuted as stated: fetch A (one record, BTC) is initiated, then fetch B
(one record, ETH); B settles first and A last.  The stored assets are then
those of A, not those of B. -/
theorem stale_fetch_overwrites :
    (run sampleEngine State.init
        [.fetchInitiated, .fetchInitiated,
          .fetchSettled (successBody [assetETH]) 1,
          .fetchSettled (successBody [assetBTC]) 2]).assets = [assetBTC] ∧
    (run sampleEngine State.init
        [.fetchInitiated, .fetchInitiated,
          .fetchSettled (successBody [assetETH]) 1,
          .fetchSettled (successBody [assetBTC]) 2]).assets ≠ arraySort [assetETH] := by
  have h : (run sampleEngine State.init
        [.fetchInitiated, .fetchInitiated,
          .fetchSettled (successBody [assetETH]) 1,
          .fetchSettled (successBody [assetBTC]) 2]).assets = [assetBTC] := rfl
  refine ⟨h, ?_⟩
  rw [h]
  simp [arraySort, assetBTC, assetETH]

/-- C6, amended: catalog updates follow the order of arrival.  When fetch A and
then fetch B are initiated and B settles before A, both successfully, the
stored assets after the last event are the sorted records of A, having been
those of B in between; the last-update time is that of A's arrival when the
engine can spread A's records. -/
theorem last_settled_fetch_wins (engine : Engine) (s : State) (eA eB : Option String)
    (lA lB : List Asset) (nowA nowB : Nat) :
    (run engine s [.fetchInitiated, .fetchInitiated,
        .fetchSettled (.resolved ⟨true, eB, some lB⟩) nowB,
        .fetchSettled (.resolved ⟨true, eA, some lA⟩) nowA]).assets = arraySort lA ∧
    (lA.length ≤ engine.maxArguments →
      (run engine s [.fetchInitiated, .fetchInitiated,
          .fetchSettled (.resolved ⟨true, eB, some lB⟩) nowB,
          .fetchSettled (.resolved ⟨true, eA, some lA⟩) nowA]).lastUpdate = some nowA) ∧
    (run engine s [.fetchInitiated, .fetchInitiated,
        .fetchSettled (.resolved ⟨true, eB, some lB⟩) nowB]).assets = arraySort lB := by
  refine ⟨?_, ?_, ?_⟩
  · simp only [run, List.foldl, step, fetchSettle, if_true]
    split_ifs <;> rfl
  · intro hlen
    have h : (arraySort lA).length ≤ engine.maxArguments := by rwa [length_arraySort]
    simp only [run, List.foldl, step, fetchSettle, if_true, if_pos h]
    rfl
  · simp only [run, List.foldl, step, fetchSettle, if_true]
    split_ifs <;> rfl

/-! ## The view (C8) -/

/-- C8, refuted as stated: after a successful fetch of one record and then a
rejected one, the stored assets are not empty and an error is set, and the
component returns the full-screen error, not the grid. -/
theorem render_error_hides_stale_grid :
    (run sampleEngine State.init
        [.fetchInitiated, .fetchSettled (successBody [assetBTC]) 1,
          .fetchInitiated, .fetchSettled .rejected 2]).assets = [assetBTC] ∧
    (run sampleEngine State.init
        [.fetchInitiated, .fetchSettled (successBody [assetBTC]) 1,
          .fetchInitiated, .fetchSettled .rejected 2]).error =
      some "Failed to fetch data from server" ∧
    render (run sampleEngine State.init
        [.fetchInitiated, .fetchSettled (successBody [assetBTC]) 1,
          .fetchInitiated, .fetchSettled .rejected 2]) =
      .errorScreen "Failed to fetch data from server" := by
  refine ⟨rfl, rfl, ?_⟩
  have h1 : (run sampleEngine State.init
        [.fetchInitiated, .fetchSettled (successBody [assetBTC]) 1,
          .fetchInitiated, .fetchSettled .rejected 2]).assets = [assetBTC] := rfl
  have h2 : (run sampleEngine State.init
        [.fetchInitiated, .fetchSettled (successBody [assetBTC]) 1,
          .fetchInitiated, .fetchSettled .rejected 2]).error =
      some "Failed to fetch data from server" := rfl
  have h3 : (run sampleEngine State.init
        [.fetchInitiated, .fetchSettled (successBody [assetBTC]) 1,
          .fetchInitiated, .fetchSettled .rejected 2]).loading = false := rfl
  simp [render, h1, h2, h3, truthy]

/-- C8, amended: the component returns the full-screen error exactly when a
non-empty error message is set and the loading screen does not apply (not
loading, or some assets stored); so with an error set and stored assets
present it returns the full-screen error, and the grid of stale assets is
not rendered. -/
theorem render_errorScreen_iff (s : State) (msg : String) :
    (render s = .errorScreen msg ↔
        (s.loading = false ∨ s.assets ≠ []) ∧ s.error = some msg ∧ msg ≠ "") ∧
    (s.error = some msg → msg ≠ "" → s.assets ≠ [] → render s = .errorScreen msg) ∧
    (render s = .loadingScreen ↔ s.loading = true ∧ s.assets = []) := by
  have key : (s.loading && s.assets.length == 0) = true ↔ s.loading = true ∧ s.assets = [] := by
    simp [List.length_eq_zero]
  refine ⟨?_, ?_, ?_⟩
  · unfold render
    by_cases hl : (s.loading && s.assets.length == 0) = true
    · have hl2 := key.mp hl
      simp [hl, hl2.1, hl2.2]
    · have hl2 : ¬ (s.loading = true ∧ s.assets = []) := fun h => hl (key.mpr h)
      have hl3 : s.loading = false ∨ s.assets ≠ [] := by
        by_cases h : s.loading = true
        · exact Or.inr fun h2 => hl2 ⟨h, h2⟩
        · exact Or.inl (by simpa using h)
      rw [if_neg hl]
      rcases he : s.error with _ | m
      · simp
      · by_cases hm : m = ""
        · subst hm
          simp [truthy, hl3]
          rintro rfl
          simp
        · simp [truthy, hm, hl3]
          rintro rfl
          exact hm
  · intro he hm ha
    unfold render
    have hl : ¬ (s.loading && s.assets.length == 0) = true := fun h => ha (key.mp h).2
    rw [if_neg hl, he]
    simp [truthy, hm]
  · unfold render
    by_cases hl : (s.loading && s.assets.length == 0) = true
    · simp [hl, key.mp hl]
    · rw [if_neg hl]
      have hl2 : ¬ (s.loading = true ∧ s.assets = []) := fun h => hl (key.mpr h)
      rcases he : s.error with _ | m
      · simpa using hl2
      · by_cases hm : truthy (some m) = true
        · simpa [hm] using hl2
        · simpa [hm] using hl2

end HyperliquidTracker

